import Mathlib

/-!
Verification development for the alert-evaluation core of `cryptolertbot`
(`src/main.py`): a price-threshold watcher.  Users register a target price
and direction for a ticker symbol; a recurring job re-checks live prices,
notifies when a threshold is crossed, and deletes the fired alert.

The shallow embedding below translates the database layer
(`db_add_alert`, `db_delete_alert`, `db_delete_by_id`,
`db_fetch_all_alerts`), the quote call (`lcw_single`), the registration
command (`alert_cmd`) and the evaluator (`alert_check_job`) into pure
Lean functions.  The Postgres table is a `List Alert`; `SERIAL` id
assignment is an explicit `next_id` counter.  Prices (Python floats /
`NUMERIC`) are modelled as `Rat`.  Network effects are oracles: the quote
provider is a function `String → Option Rat` from the request code to a
price (`none` = non-200 response / missing `rate` / exception), the
Telegram `send_message` call and the delete statement are per-alert-id
success flags (`false` = the call raised, which the code catches).
-/

/-- Python's `str.upper()` (ASCII case mapping, applied character-wise). -/
def pyUpper (s : String) : String :=
  ⟨s.data.map Char.toUpper⟩

/-- Python's `str.strip()`: remove leading and trailing whitespace. -/
def pyStrip (s : String) : String :=
  ⟨((s.data.dropWhile Char.isWhitespace).reverse.dropWhile
      Char.isWhitespace).reverse⟩

/-- One row of the `alerts` table
(`id, user_id, chat_id, symbol, target, direction`). -/
structure Alert where
  id : Nat
  user_id : Int
  chat_id : Int
  symbol : String
  target : Rat
  direction : String
deriving DecidableEq, Repr

/-- `db_add_alert`: `INSERT INTO alerts (user_id, chat_id, symbol, target,
direction) VALUES (...)` with `symbol.upper()`.  The `SERIAL` key is the
explicit `next_id`. -/
def db_add_alert (store : List Alert) (next_id : Nat) (user_id chat_id : Int)
    (symbol : String) (target : Rat) (direction : String) : List Alert :=
  store ++ [⟨next_id, user_id, chat_id, pyUpper symbol, target, direction⟩]

/-- `db_delete_alert`: `DELETE FROM alerts WHERE id = %s AND user_id = %s`,
returning the remaining rows and `cur.rowcount > 0`. -/
def db_delete_alert (store : List Alert) (alert_id : Nat) (user_id : Int) :
    List Alert × Bool :=
  (store.filter (fun a => !(a.id == alert_id && a.user_id == user_id)),
   store.any (fun a => a.id == alert_id && a.user_id == user_id))

/-- `db_delete_by_id`: `DELETE FROM alerts WHERE id = %s`. -/
def db_delete_by_id (store : List Alert) (alert_id : Nat) : List Alert :=
  store.filter (fun a => !(a.id == alert_id))

/-- `lcw_single`: POSTs `code = symbol.upper().strip()` to the quote API;
the provider oracle maps that request code to `rate` (or `none`). -/
def lcw_single (provider : String → Option Rat) (symbol : String) :
    Option Rat :=
  provider (pyStrip (pyUpper symbol))

/-- `alert_cmd`: `direction = "above" if target >= price_now else "below"`. -/
def alertDirection (target price_now : Rat) : String :=
  if target ≥ price_now then "above" else "below"

/-- The persistence step of `alert_cmd` after a successful quote: derive the
direction from the live price and insert via `db_add_alert`. -/
def alert_cmd_register (store : List Alert) (next_id : Nat)
    (user_id chat_id : Int) (sym : String) (target price_now : Rat) :
    List Alert :=
  db_add_alert store next_id user_id chat_id sym target
    (alertDirection target price_now)

/-- The SQL schema constraint `CHECK (direction IN ('above','below'))`
from `db_connect`. -/
def directionCheck (direction : String) : Bool :=
  direction == "above" || direction == "below"

/-- The network/failure environment of one `alert_check_job` cycle:
whether `db_fetch_all_alerts` succeeds, the quote provider, and per-alert-id
success of `context.bot.send_message` and of `db_delete_by_id`. -/
structure Oracles where
  scanOk : Bool
  provider : String → Option Rat
  notifyOk : Nat → Bool
  deleteOk : Nat → Bool

/-- Observable outcome of one `alert_check_job` cycle: the symbols sent to
`lcw_single`, the alert ids for which a notification was attempted, those
for which it succeeded, the ids for which `db_delete_by_id` was attempted,
and the resulting store. -/
structure CycleLog where
  providerCalls : List String
  notifyAttempts : List Nat
  notifySuccesses : List Nat
  deleteAttempts : List Nat
  store' : List Alert
deriving Repr

/-- The no-op cycle outcome (empty snapshot, or scan failure caught by the
outer `except`). -/
def initLog (store : List Alert) : CycleLog :=
  ⟨[], [], [], [], store⟩

/-- `symbols = set(r[3].upper() for r in rows)`: the distinct upper-cased
symbols of the snapshot. -/
def distinctSymbols (rows : List Alert) : List String :=
  (rows.map (fun r => pyUpper r.symbol)).dedup

/-- The fetch loop `for sym in symbols: prices[sym] = ...`: one
`lcw_single` call per distinct symbol, keyed by the pre-trim symbol. -/
def buildPrices (provider : String → Option Rat) (symbols : List String) :
    List (String × Option Rat) :=
  symbols.map (fun s => (s, lcw_single provider s))

/-- `prices.get(sym)`: dictionary lookup (missing key yields `none`). -/
def pricesGet (prices : List (String × Option Rat)) (s : String) :
    Option Rat :=
  match prices.find? (fun p => p.1 == s) with
  | some p => p.2
  | none => none

/-- `hit = (direction == "above" and price_now >= float(target)) or
(direction == "below" and price_now <= float(target))`. -/
def evalHit (direction : String) (price_now target : Rat) : Bool :=
  (direction == "above" && decide (price_now ≥ target)) ||
    (direction == "below" && decide (price_now ≤ target))

/-- The body of the evaluation loop for one row `r`:
`sym = sym.upper(); price_now = prices.get(sym)`; skip if `None`;
on a hit, attempt `send_message` (exception caught) then attempt
`db_delete_by_id` (exception caught). -/
def processRow (o : Oracles) (prices : List (String × Option Rat))
    (acc : CycleLog) (r : Alert) : CycleLog :=
  match pricesGet prices (pyUpper r.symbol) with
  | none => acc
  | some price_now =>
    if evalHit r.direction price_now r.target then
      ⟨acc.providerCalls,
       acc.notifyAttempts ++ [r.id],
       acc.notifySuccesses ++ (if o.notifyOk r.id then [r.id] else []),
       acc.deleteAttempts ++ [r.id],
       if o.deleteOk r.id then db_delete_by_id acc.store' r.id
       else acc.store'⟩
    else acc

/-- `alert_check_job`: scan all alerts (a scan failure is caught by the
outer `except`, aborting the cycle), return early if empty, fetch one
quote per distinct symbol, then evaluate every row. -/
def alert_check_job (store : List Alert) (o : Oracles) : CycleLog :=
  if !o.scanOk then initLog store
  else if store.isEmpty then initLog store
  else
    let symbols := distinctSymbols store
    let prices := buildPrices o.provider symbols
    store.foldl (processRow o prices) ⟨symbols, [], [], [], store⟩

/-- Whether row `r` is judged a hit this cycle: its price is available in
`prices` and the threshold test passes. -/
def rowHits (prices : List (String × Option Rat)) (r : Alert) : Bool :=
  match pricesGet prices (pyUpper r.symbol) with
  | none => false
  | some price_now => evalHit r.direction price_now r.target

/-- The operations that ever touch the alerts table: registration
(`alert_cmd` with the price observed at creation), owner deletion
(`delalert`), system deletion, and one evaluator cycle. -/
inductive StoreOp where
  | add (user_id chat_id : Int) (symbol : String) (target price_now : Rat)
  | delOwner (alert_id : Nat) (user_id : Int)
  | delId (alert_id : Nat)
  | cycle (o : Oracles)

/-- Apply one operation to (store, next serial id).  `alert_cmd` upper-cases
the raw command argument before quoting and inserting. -/
def applyOp (s : List Alert × Nat) (op : StoreOp) : List Alert × Nat :=
  match op with
  | .add user_id chat_id symbol target price_now =>
    (alert_cmd_register s.1 s.2 user_id chat_id (pyUpper symbol) target
      price_now, s.2 + 1)
  | .delOwner alert_id user_id =>
    ((db_delete_alert s.1 alert_id user_id).1, s.2)
  | .delId alert_id => (db_delete_by_id s.1 alert_id, s.2)
  | .cycle o => ((alert_check_job s.1 o).store', s.2)

/-- Run a sequence of operations from the empty table. -/
def runOps (ops : List StoreOp) : List Alert × Nat :=
  ops.foldl applyOp ([], 1)

/-! ## Concrete instances used to exercise the theorems -/

/-- A quote provider that knows only the code `BTC`, at price 50000. -/
def wProv : String → Option Rat :=
  fun s => if s = "BTC" then some 50000 else none

/-- An always-succeeding per-alert network call. -/
def wTrue : Nat → Bool := fun _ => true

/-- An always-failing per-alert network call. -/
def wFalse : Nat → Bool := fun _ => false

/-- A per-alert network call that fails exactly for alert id 1. -/
def wNot1 : Nat → Bool := fun j => !(j == 1)

/-- A stored BTC alert sitting exactly at its threshold. -/
def wAlert : Alert := ⟨1, 10, 20, "BTC", 50000, "above"⟩

/-- A second BTC alert (lower-case symbol variant, higher threshold). -/
def wAlert2 : Alert := ⟨2, 11, 21, "btc", 60000, "above"⟩

/-- An ETH alert; `wProv` has no quote for it. -/
def wAlertETH : Alert := ⟨2, 11, 21, "ETH", 2000, "below"⟩

/-! ## Characterization lemmas for one evaluation cycle -/

lemma processRow_eq (o : Oracles) (prices : List (String × Option Rat))
    (acc : CycleLog) (r : Alert) :
    processRow o prices acc r =
      if rowHits prices r then
        ⟨acc.providerCalls,
         acc.notifyAttempts ++ [r.id],
         acc.notifySuccesses ++ (if o.notifyOk r.id then [r.id] else []),
         acc.deleteAttempts ++ [r.id],
         if o.deleteOk r.id then
           acc.store'.filter (fun a => !(a.id == r.id))
         else acc.store'⟩
      else acc := by
  unfold processRow rowHits db_delete_by_id
  cases h : pricesGet prices (pyUpper r.symbol) with
  | none => simp
  | some price_now =>
    by_cases hh : evalHit r.direction price_now r.target <;> simp [hh]

lemma foldl_providerCalls (o : Oracles) (prices : List (String × Option Rat))
    (rows : List Alert) (acc : CycleLog) :
    (rows.foldl (processRow o prices) acc).providerCalls =
      acc.providerCalls := by
  induction rows generalizing acc with
  | nil => rfl
  | cons r rest ih =>
    rw [List.foldl_cons, processRow_eq]
    by_cases h : rowHits prices r <;> simp only [h, if_true, if_false,
      Bool.false_eq_true, ite_false, ite_true] <;> rw [ih]

lemma foldl_notifyAttempts (o : Oracles) (prices : List (String × Option Rat))
    (rows : List Alert) (acc : CycleLog) :
    (rows.foldl (processRow o prices) acc).notifyAttempts =
      acc.notifyAttempts ++ (rows.filter (rowHits prices)).map Alert.id := by
  induction rows generalizing acc with
  | nil => simp
  | cons r rest ih =>
    rw [List.foldl_cons, processRow_eq]
    by_cases h : rowHits prices r
    · simp only [h, ite_true]
      rw [ih]
      simp [List.filter_cons, h]
    · simp only [h, Bool.false_eq_true, ite_false]
      rw [ih]
      simp [List.filter_cons, h]

lemma foldl_deleteAttempts (o : Oracles) (prices : List (String × Option Rat))
    (rows : List Alert) (acc : CycleLog) :
    (rows.foldl (processRow o prices) acc).deleteAttempts =
      acc.deleteAttempts ++ (rows.filter (rowHits prices)).map Alert.id := by
  induction rows generalizing acc with
  | nil => simp
  | cons r rest ih =>
    rw [List.foldl_cons, processRow_eq]
    by_cases h : rowHits prices r
    · simp only [h, ite_true]
      rw [ih]
      simp [List.filter_cons, h]
    · simp only [h, Bool.false_eq_true, ite_false]
      rw [ih]
      simp [List.filter_cons, h]

lemma foldl_store (o : Oracles) (prices : List (String × Option Rat))
    (rows : List Alert) (acc : CycleLog) :
    (rows.foldl (processRow o prices) acc).store' =
      acc.store'.filter (fun a =>
        !(rows.any (fun r =>
          rowHits prices r && o.deleteOk r.id && a.id == r.id))) := by
  induction rows generalizing acc with
  | nil => simp
  | cons r rest ih =>
    rw [List.foldl_cons, processRow_eq]
    by_cases h : rowHits prices r
    · simp only [h, ite_true]
      by_cases hd : o.deleteOk r.id
      · simp only [hd, ite_true]
        rw [ih]
        simp only [List.filter_filter]
        apply List.filter_congr
        intro a _
        simp only [List.any_cons, h, hd, Bool.true_and, Bool.not_or]
        cases a.id == r.id <;>
          cases rest.any (fun x =>
            rowHits prices x && o.deleteOk x.id && a.id == x.id) <;> rfl
      · simp only [hd, Bool.false_eq_true, ite_false]
        rw [ih]
        apply List.filter_congr
        intro a _
        simp [List.any_cons, h, hd]
    · simp only [h, Bool.false_eq_true, ite_false]
      rw [ih]
      apply List.filter_congr
      intro a _
      simp [List.any_cons, h]

lemma alert_check_job_scanFail (store : List Alert) (o : Oracles)
    (h : o.scanOk = false) : alert_check_job store o = initLog store := by
  unfold alert_check_job
  simp [h]

lemma alert_check_job_eq (store : List Alert) (o : Oracles)
    (h : o.scanOk = true) :
    alert_check_job store o =
      store.foldl
        (processRow o (buildPrices o.provider (distinctSymbols store)))
        ⟨distinctSymbols store, [], [], [], store⟩ := by
  unfold alert_check_job
  cases store with
  | nil => simp [h, initLog, distinctSymbols]
  | cons a as => simp [h]

lemma job_providerCalls (store : List Alert) (o : Oracles)
    (h : o.scanOk = true) :
    (alert_check_job store o).providerCalls = distinctSymbols store := by
  rw [alert_check_job_eq store o h, foldl_providerCalls]

lemma job_notifyAttempts (store : List Alert) (o : Oracles)
    (h : o.scanOk = true) :
    (alert_check_job store o).notifyAttempts =
      (store.filter
        (rowHits (buildPrices o.provider (distinctSymbols store)))).map
        Alert.id := by
  rw [alert_check_job_eq store o h, foldl_notifyAttempts]
  rfl

lemma job_deleteAttempts (store : List Alert) (o : Oracles)
    (h : o.scanOk = true) :
    (alert_check_job store o).deleteAttempts =
      (store.filter
        (rowHits (buildPrices o.provider (distinctSymbols store)))).map
        Alert.id := by
  rw [alert_check_job_eq store o h, foldl_deleteAttempts]
  rfl

lemma job_store (store : List Alert) (o : Oracles) (h : o.scanOk = true) :
    (alert_check_job store o).store' =
      store.filter (fun a =>
        !(store.any (fun r =>
          rowHits (buildPrices o.provider (distinctSymbols store)) r &&
            o.deleteOk r.id && a.id == r.id))) := by
  rw [alert_check_job_eq store o h, foldl_store]

lemma pricesGet_buildPrices (provider : String → Option Rat)
    (symbols : List String) (s : String) (hs : s ∈ symbols) :
    pricesGet (buildPrices provider symbols) s = lcw_single provider s := by
  induction symbols with
  | nil => exact absurd hs (List.not_mem_nil s)
  | cons t ts ih =>
    by_cases he : t = s
    · subst he
      simp [buildPrices, pricesGet]
    · have hs' : s ∈ ts := by
        rcases List.mem_cons.mp hs with h | h
        · exact absurd h.symm he
        · exact h
      have hbe : (t == s) = false := by simp [he]
      have hts := ih hs'
      simp only [buildPrices, List.map_cons] at hts ⊢
      unfold pricesGet at hts ⊢
      rw [List.find?_cons, hbe]
      exact hts

lemma rowHits_of_price (store : List Alert) (provider : String → Option Rat)
    (r : Alert) (p : Rat) (hr : r ∈ store)
    (hp : lcw_single provider (pyUpper r.symbol) = some p) :
    rowHits (buildPrices provider (distinctSymbols store)) r =
      evalHit r.direction p r.target := by
  have hmem : pyUpper r.symbol ∈ distinctSymbols store := by
    unfold distinctSymbols
    rw [List.mem_dedup]
    exact List.mem_map_of_mem _ hr
  unfold rowHits
  rw [pricesGet_buildPrices _ _ _ hmem, hp]

lemma rowHits_of_none (store : List Alert) (provider : String → Option Rat)
    (r : Alert) (hr : r ∈ store)
    (hp : lcw_single provider (pyUpper r.symbol) = none) :
    rowHits (buildPrices provider (distinctSymbols store)) r = false := by
  have hmem : pyUpper r.symbol ∈ distinctSymbols store := by
    unfold distinctSymbols
    rw [List.mem_dedup]
    exact List.mem_map_of_mem _ hr
  unfold rowHits
  rw [pricesGet_buildPrices _ _ _ hmem, hp]

lemma job_store_subset (store : List Alert) (o : Oracles) (a : Alert)
    (ha : a ∈ (alert_check_job store o).store') : a ∈ store := by
  cases h : o.scanOk
  · rw [alert_check_job_scanFail store o h] at ha
    exact ha
  · rw [job_store store o h] at ha
    exact (List.mem_filter.mp ha).1

/-! ## Reachable stores: every way the alerts table is ever touched -/

lemma foldOps_mem (ops : List StoreOp) (init : List Alert × Nat) (a : Alert)
    (h : a ∈ (ops.foldl applyOp init).1) :
    a ∈ init.1 ∨ ∃ user_id chat_id symbol target price_now,
      StoreOp.add user_id chat_id symbol target price_now ∈ ops ∧
      a.target = target ∧ a.direction = alertDirection target price_now := by
  induction ops generalizing init with
  | nil => exact Or.inl h
  | cons op rest ih =>
    rw [List.foldl_cons] at h
    rcases ih (applyOp init op) h with h1 | h1
    · cases op with
      | add user_id chat_id symbol target price_now =>
        simp only [applyOp, alert_cmd_register, db_add_alert] at h1
        rcases List.mem_append.mp h1 with h2 | h2
        · exact Or.inl h2
        · have ha : a = ⟨init.2, user_id, chat_id, pyUpper (pyUpper symbol),
              target, alertDirection target price_now⟩ :=
            List.mem_singleton.mp h2
          refine Or.inr ⟨user_id, chat_id, symbol, target, price_now,
            List.mem_cons_self _ _, ?_, ?_⟩ <;> rw [ha]
      | delOwner alert_id user_id =>
        simp only [applyOp, db_delete_alert] at h1
        exact Or.inl (List.mem_filter.mp h1).1
      | delId alert_id =>
        simp only [applyOp, db_delete_by_id] at h1
        exact Or.inl (List.mem_filter.mp h1).1
      | cycle o =>
        simp only [applyOp] at h1
        exact Or.inl (job_store_subset _ _ _ h1)
    · rcases h1 with ⟨user_id, chat_id, symbol, target, price_now, hmem, ht, hd⟩
      exact Or.inr ⟨user_id, chat_id, symbol, target, price_now,
        List.mem_cons_of_mem _ hmem, ht, hd⟩

lemma runOps_mem (ops : List StoreOp) (a : Alert)
    (h : a ∈ (runOps ops).1) :
    ∃ user_id chat_id symbol target price_now,
      StoreOp.add user_id chat_id symbol target price_now ∈ ops ∧
      a.target = target ∧ a.direction = alertDirection target price_now := by
  rcases foldOps_mem ops ([], 1) a h with h1 | h1
  · exact absurd h1 (List.not_mem_nil a)
  · exact h1

/-! ## Claims -/

/-- C6: if the evaluator's initial full-store read (`db_fetch_all_alerts`)
fails, the outer exception handler aborts the whole cycle: no quote lookup
is issued, no notification is attempted, no deletion is attempted, and the
store is left exactly as it was. -/
theorem C6_scan_failure_aborts_cycle (store : List Alert)
    (provider : String → Option Rat) (notifyOk deleteOk : Nat → Bool) :
    alert_check_job store ⟨false, provider, notifyOk, deleteOk⟩ =
      ⟨[], [], [], [], store⟩ := rfl

/-- C7: `db_delete_alert` returns `true` iff a row with exactly the given
id and owner existed (and every such row is removed); when no row matches
both, it returns `false` and leaves the store unchanged, and a row of a
different owner is never deleted. -/
theorem C7_delete_by_owner_boundary (store : List Alert) (alert_id : Nat)
    (user_id : Int) :
    ((db_delete_alert store alert_id user_id).2 = true ↔
      ∃ a ∈ store, a.id = alert_id ∧ a.user_id = user_id) ∧
    ((db_delete_alert store alert_id user_id).2 = false →
      (db_delete_alert store alert_id user_id).1 = store) ∧
    (∀ a ∈ store, a.user_id ≠ user_id →
      a ∈ (db_delete_alert store alert_id user_id).1) ∧
    (∀ a ∈ store, a.id = alert_id → a.user_id = user_id →
      a ∉ (db_delete_alert store alert_id user_id).1) := by
  refine ⟨?_, ?_, ?_, ?_⟩
  · unfold db_delete_alert
    simp [List.any_eq_true]
  · intro h
    unfold db_delete_alert at h ⊢
    simp only [List.any_eq_false] at h
    apply List.filter_eq_self.mpr
    intro a ha
    have := h a ha
    simp only [this]
    rfl
  · intro a ha hneq
    unfold db_delete_alert
    apply List.mem_filter.mpr
    refine ⟨ha, ?_⟩
    simp [hneq]
  · intro a ha h1 h2 habs
    unfold db_delete_alert at habs
    have := (List.mem_filter.mp habs).2
    simp [h1, h2] at this

/-- C7 witness: deleting alert id 1 with the wrong owner 99 reports
`false` and the alert survives. -/
theorem C7_witness :
    (db_delete_alert [wAlert] 1 99).2 = false ∧
    wAlert ∈ (db_delete_alert [wAlert] 1 99).1 :=
  ⟨by decide,
   (C7_delete_by_owner_boundary [wAlert] 1 99).2.2.1 wAlert (by decide)
     (by decide)⟩

/-- C4: with a readable store, the cycle issues exactly one quote lookup
per distinct upper-cased symbol of the snapshot (never one per alert, and
none twice), and an empty snapshot issues no lookup at all. -/
theorem C4_one_lookup_per_distinct_symbol (store : List Alert) (o : Oracles)
    (hscan : o.scanOk = true) :
    (alert_check_job store o).providerCalls.length =
      ((store.map (fun r => pyUpper r.symbol)).toFinset).card ∧
    (alert_check_job store o).providerCalls.Nodup ∧
    (∀ r ∈ store, pyUpper r.symbol ∈ (alert_check_job store o).providerCalls) ∧
    (store = [] → (alert_check_job store o).providerCalls = []) := by
  rw [job_providerCalls store o hscan]
  refine ⟨?_, ?_, ?_, ?_⟩
  · rw [List.card_toFinset]
    rfl
  · exact List.nodup_dedup _
  · intro r hr
    unfold distinctSymbols
    rw [List.mem_dedup]
    exact List.mem_map_of_mem _ hr
  · intro h
    subst h
    rfl

/-- C4 witness: two alerts on case variants of one ticker yield a single
provider call. -/
theorem C4_witness :
    (alert_check_job [wAlert, wAlert2]
        ⟨true, wProv, wTrue, wTrue⟩).providerCalls.length =
      (([wAlert, wAlert2].map (fun r => pyUpper r.symbol)).toFinset).card ∧
    (alert_check_job [wAlert, wAlert2]
        ⟨true, wProv, wTrue, wTrue⟩).providerCalls.Nodup ∧
    (([wAlert, wAlert2].map (fun r => pyUpper r.symbol)).toFinset).card = 1 :=
  have h := C4_one_lookup_per_distinct_symbol [wAlert, wAlert2]
    ⟨true, wProv, wTrue, wTrue⟩ rfl
  ⟨h.1, h.2.1, by decide⟩

/-- C2: an alert of the snapshot whose symbol has an available price is
notified in the cycle iff (direction is `above` and the observed price is
at least the threshold) or (direction is `below` and the observed price is
at most the threshold); both comparisons are inclusive. -/
theorem C2_hit_iff_inclusive_threshold (store : List Alert) (o : Oracles)
    (r : Alert) (p : Rat)
    (hscan : o.scanOk = true)
    (hids : (store.map Alert.id).Nodup)
    (hr : r ∈ store)
    (hp : lcw_single o.provider (pyUpper r.symbol) = some p) :
    r.id ∈ (alert_check_job store o).notifyAttempts ↔
      ((r.direction = "above" ∧ p ≥ r.target) ∨
        (r.direction = "below" ∧ p ≤ r.target)) := by
  rw [job_notifyAttempts store o hscan]
  constructor
  · intro h
    rcases List.mem_map.mp h with ⟨r2, hr2, hid⟩
    have hr2mem := (List.mem_filter.mp hr2).1
    have heq : r2 = r := List.inj_on_of_nodup_map hids hr2mem hr hid
    subst heq
    have hrh := (List.mem_filter.mp hr2).2
    rw [rowHits_of_price store o.provider r2 p hr hp] at hrh
    unfold evalHit at hrh
    simpa [ge_iff_le] using hrh
  · intro h
    have hhit : evalHit r.direction p r.target = true := by
      unfold evalHit
      rcases h with ⟨h1, h2⟩ | ⟨h1, h2⟩ <;> simp [h1, h2]
    have hrow : rowHits (buildPrices o.provider (distinctSymbols store)) r =
        true := by
      rw [rowHits_of_price store o.provider r p hr hp]
      exact hhit
    exact List.mem_map_of_mem _ (List.mem_filter.mpr ⟨hr, hrow⟩)

/-- C2 witness: a price exactly equal to the threshold counts as a hit for
an `above` alert. -/
theorem C2_witness :
    (1 : Nat) ∈ (alert_check_job [wAlert]
      ⟨true, wProv, wTrue, wTrue⟩).notifyAttempts :=
  (C2_hit_iff_inclusive_threshold [wAlert] ⟨true, wProv, wTrue, wTrue⟩
      wAlert 50000 rfl (by decide) (by decide) rfl).mpr
    (Or.inl ⟨rfl, by decide⟩)

/-- C1: for every alert judged a hit in a cycle, exactly one notification
attempt is made, a store deletion by id is attempted regardless of the
notification outcome (the triggered set and resulting store do not depend
on the notifier at all), and when the delete statement itself succeeds the
alert is gone from the store. -/
theorem C1_hit_notified_once_deleted_unconditionally (store : List Alert)
    (o : Oracles) (r : Alert) (p : Rat)
    (hscan : o.scanOk = true)
    (hids : (store.map Alert.id).Nodup)
    (hr : r ∈ store)
    (hp : lcw_single o.provider (pyUpper r.symbol) = some p)
    (hhit : evalHit r.direction p r.target = true) :
    (alert_check_job store o).notifyAttempts.count r.id = 1 ∧
    r.id ∈ (alert_check_job store o).deleteAttempts ∧
    (∀ notify2 : Nat → Bool,
      (alert_check_job store
          ⟨o.scanOk, o.provider, notify2, o.deleteOk⟩).deleteAttempts =
        (alert_check_job store o).deleteAttempts ∧
      (alert_check_job store
          ⟨o.scanOk, o.provider, notify2, o.deleteOk⟩).store' =
        (alert_check_job store o).store') ∧
    (o.deleteOk r.id = true → r ∉ (alert_check_job store o).store') := by
  have hrow : rowHits (buildPrices o.provider (distinctSymbols store)) r =
      true := by
    rw [rowHits_of_price store o.provider r p hr hp]
    exact hhit
  have hrmem : r ∈ store.filter
      (rowHits (buildPrices o.provider (distinctSymbols store))) :=
    List.mem_filter.mpr ⟨hr, hrow⟩
  refine ⟨?_, ?_, ?_, ?_⟩
  · rw [job_notifyAttempts store o hscan]
    have hsub : ((store.filter
        (rowHits (buildPrices o.provider (distinctSymbols store)))).map
        Alert.id).Sublist (store.map Alert.id) :=
      List.Sublist.map Alert.id (List.filter_sublist store)
    exact List.count_eq_one_of_mem (hsub.nodup hids)
      (List.mem_map_of_mem Alert.id hrmem)
  · rw [job_deleteAttempts store o hscan]
    exact List.mem_map_of_mem Alert.id hrmem
  · intro notify2
    constructor
    · rw [job_deleteAttempts store o hscan,
        job_deleteAttempts store ⟨o.scanOk, o.provider, notify2, o.deleteOk⟩
          hscan]
    · rw [job_store store o hscan,
        job_store store ⟨o.scanOk, o.provider, notify2, o.deleteOk⟩ hscan]
  · intro hdel habs
    rw [job_store store o hscan] at habs
    have h2 := (List.mem_filter.mp habs).2
    have hany : store.any (fun r2 =>
        rowHits (buildPrices o.provider (distinctSymbols store)) r2 &&
          o.deleteOk r2.id && r.id == r2.id) = true :=
      List.any_eq_true.mpr ⟨r, hr, by simp [hrow, hdel]⟩
    rw [hany] at h2
    exact Bool.false_ne_true h2

/-- C1 witness: with an always-failing notifier and a working delete, the
triggered boundary alert is notified once and removed from the store. -/
theorem C1_witness :
    (alert_check_job [wAlert]
        ⟨true, wProv, wFalse, wTrue⟩).notifyAttempts.count 1 = 1 ∧
    wAlert ∉ (alert_check_job [wAlert] ⟨true, wProv, wFalse, wTrue⟩).store' :=
  have h := C1_hit_notified_once_deleted_unconditionally [wAlert]
    ⟨true, wProv, wFalse, wTrue⟩ wAlert 50000 rfl (by decide) (by decide)
    rfl (by decide)
  ⟨h.1, h.2.2.2 rfl⟩

/-- C5: an alert whose symbol has no available quote this cycle is skipped:
it is neither notified nor has a deletion attempted, it stays in the store,
and alerts on other symbols with available quotes are still evaluated and
notified in the same cycle. -/
theorem C5_unavailable_quote_skips_alert (store : List Alert) (o : Oracles)
    (r : Alert)
    (hscan : o.scanOk = true)
    (hids : (store.map Alert.id).Nodup)
    (hr : r ∈ store)
    (hp : lcw_single o.provider (pyUpper r.symbol) = none) :
    r.id ∉ (alert_check_job store o).notifyAttempts ∧
    r.id ∉ (alert_check_job store o).deleteAttempts ∧
    r ∈ (alert_check_job store o).store' ∧
    (∀ r2 ∈ store, ∀ p2 : Rat,
      lcw_single o.provider (pyUpper r2.symbol) = some p2 →
      evalHit r2.direction p2 r2.target = true →
      r2.id ∈ (alert_check_job store o).notifyAttempts) := by
  have hrow : rowHits (buildPrices o.provider (distinctSymbols store)) r =
      false := rowHits_of_none store o.provider r hr hp
  have hnot : r.id ∉ (store.filter
      (rowHits (buildPrices o.provider (distinctSymbols store)))).map
      Alert.id := by
    intro h
    rcases List.mem_map.mp h with ⟨r2, hr2, hid⟩
    have hr2mem := (List.mem_filter.mp hr2).1
    have heq : r2 = r := List.inj_on_of_nodup_map hids hr2mem hr hid
    subst heq
    have := (List.mem_filter.mp hr2).2
    rw [hrow] at this
    exact Bool.false_ne_true this
  refine ⟨?_, ?_, ?_, ?_⟩
  · rw [job_notifyAttempts store o hscan]
    exact hnot
  · rw [job_deleteAttempts store o hscan]
    exact hnot
  · rw [job_store store o hscan]
    apply List.mem_filter.mpr
    refine ⟨hr, ?_⟩
    have hany : store.any (fun r2 =>
        rowHits (buildPrices o.provider (distinctSymbols store)) r2 &&
          o.deleteOk r2.id && r.id == r2.id) = false := by
      rw [List.any_eq_false]
      intro r2 hr2
      by_cases hid : r.id = r2.id
      · have heq : r = r2 := List.inj_on_of_nodup_map hids hr hr2 hid
        subst heq
        simp [hrow]
      · have : (r.id == r2.id) = false := by simp [hid]
        simp [this]
    simp [hany]
  · intro r2 hr2 p2 hp2 hhit2
    rw [job_notifyAttempts store o hscan]
    have hrow2 : rowHits (buildPrices o.provider (distinctSymbols store))
        r2 = true := by
      rw [rowHits_of_price store o.provider r2 p2 hr2 hp2]
      exact hhit2
    exact List.mem_map_of_mem Alert.id (List.mem_filter.mpr ⟨hr2, hrow2⟩)

/-- C5 witness: with a provider that only quotes BTC, the ETH alert
survives the cycle untouched while the BTC alert still triggers. -/
theorem C5_witness :
    (2 : Nat) ∉ (alert_check_job [wAlert, wAlertETH]
      ⟨true, wProv, wTrue, wTrue⟩).notifyAttempts ∧
    wAlertETH ∈ (alert_check_job [wAlert, wAlertETH]
      ⟨true, wProv, wTrue, wTrue⟩).store' ∧
    (1 : Nat) ∈ (alert_check_job [wAlert, wAlertETH]
      ⟨true, wProv, wTrue, wTrue⟩).notifyAttempts :=
  have h := C5_unavailable_quote_skips_alert [wAlert, wAlertETH]
    ⟨true, wProv, wTrue, wTrue⟩ wAlertETH rfl (by decide) (by decide) rfl
  ⟨h.1, h.2.2.1, h.2.2.2 wAlert (by decide) 50000 rfl (by decide)⟩

/-- C3: every alert in any store reachable by the program's operations was
put there by a registration, its stored direction is `above` iff the
requested threshold was at least the price observed from the quote
provider at registration time (`below` otherwise), and no later operation
(owner delete, system delete, evaluator cycle) ever changes it. -/
theorem C3_direction_fixed_at_registration (ops : List StoreOp) (a : Alert)
    (h : a ∈ (runOps ops).1) :
    ∃ user_id chat_id symbol target price_now,
      StoreOp.add user_id chat_id symbol target price_now ∈ ops ∧
      a.target = target ∧
      (a.direction = "above" ↔ target ≥ price_now) ∧
      (a.direction = "below" ↔ ¬target ≥ price_now) := by
  rcases runOps_mem ops a h with
    ⟨user_id, chat_id, symbol, target, price_now, hmem, ht, hd⟩
  refine ⟨user_id, chat_id, symbol, target, price_now, hmem, ht, ?_, ?_⟩ <;>
    rw [hd] <;> unfold alertDirection <;>
    by_cases hc : target ≥ price_now <;> simp [hc]

/-- C3 witness: registering a threshold of 50000 against an observed price
of 49000 yields direction `above`. -/
theorem C3_witness :
    (⟨1, 10, 20, "BTC", 50000, "above"⟩ : Alert) ∈
      (runOps [StoreOp.add 10 20 "btc" 50000 49000]).1 ∧
    (⟨1, 10, 20, "BTC", 50000, "above"⟩ : Alert).direction = "above" := by
  refine ⟨by decide, ?_⟩
  rcases C3_direction_fixed_at_registration
      [StoreOp.add 10 20 "btc" 50000 49000]
      ⟨1, 10, 20, "BTC", 50000, "above"⟩ (by decide) with
    ⟨user_id, chat_id, symbol, target, price_now, hmem, ht, hab, hbe⟩
  have hop := List.mem_singleton.mp hmem
  injection hop with h1 h2 h3 h4 h5
  subst h4
  subst h5
  exact hab.mpr (by decide)

/-- C10: every alert row in any reachable store satisfies the schema
constraint `CHECK (direction IN ('above','below'))`: registration is the
only insert path and computes one of the two literals. -/
theorem C10_direction_always_two_valued (ops : List StoreOp) (a : Alert)
    (h : a ∈ (runOps ops).1) :
    directionCheck a.direction = true := by
  rcases runOps_mem ops a h with
    ⟨user_id, chat_id, symbol, target, price_now, hmem, ht, hd⟩
  rw [hd]
  unfold alertDirection directionCheck
  by_cases hc : target ≥ price_now <;> simp [hc]

/-- C10 witness: a registration below the observed price stores the
literal `below`, which passes the schema check. -/
theorem C10_witness :
    (⟨1, 10, 20, "ETH", 1000, "below"⟩ : Alert) ∈
      (runOps [StoreOp.add 10 20 "eth" 1000 2500]).1 ∧
    directionCheck (⟨1, 10, 20, "ETH", 1000, "below"⟩ : Alert).direction =
      true :=
  ⟨by decide,
   C10_direction_always_two_valued [StoreOp.add 10 20 "eth" 1000 2500]
     ⟨1, 10, 20, "ETH", 1000, "below"⟩ (by decide)⟩

/-- C9: a notification or deletion failure for one alert id does not
affect the rest of the cycle: the sets of attempted notifications and
deletions do not depend on those failures at all, and every other alert's
survival in the store is unchanged between two runs whose failure oracles
agree outside the one id. -/
theorem C9_per_alert_failure_isolated (store : List Alert) (scanOk : Bool)
    (provider : String → Option Rat) (n1 d1 n2 d2 : Nat → Bool) (bad : Nat)
    (hagree : ∀ j, j ≠ bad → n1 j = n2 j ∧ d1 j = d2 j) :
    (alert_check_job store ⟨scanOk, provider, n1, d1⟩).notifyAttempts =
      (alert_check_job store ⟨scanOk, provider, n2, d2⟩).notifyAttempts ∧
    (alert_check_job store ⟨scanOk, provider, n1, d1⟩).deleteAttempts =
      (alert_check_job store ⟨scanOk, provider, n2, d2⟩).deleteAttempts ∧
    (∀ a ∈ store, a.id ≠ bad →
      (a ∈ (alert_check_job store ⟨scanOk, provider, n1, d1⟩).store' ↔
        a ∈ (alert_check_job store ⟨scanOk, provider, n2, d2⟩).store')) := by
  cases scanOk with
  | false =>
    rw [alert_check_job_scanFail store ⟨false, provider, n1, d1⟩ rfl,
      alert_check_job_scanFail store ⟨false, provider, n2, d2⟩ rfl]
    exact ⟨rfl, rfl, fun a _ _ => Iff.rfl⟩
  | true =>
    refine ⟨?_, ?_, ?_⟩
    · rw [job_notifyAttempts store ⟨true, provider, n1, d1⟩ rfl,
        job_notifyAttempts store ⟨true, provider, n2, d2⟩ rfl]
    · rw [job_deleteAttempts store ⟨true, provider, n1, d1⟩ rfl,
        job_deleteAttempts store ⟨true, provider, n2, d2⟩ rfl]
    · intro a ha hneq
      rw [job_store store ⟨true, provider, n1, d1⟩ rfl,
        job_store store ⟨true, provider, n2, d2⟩ rfl]
      simp only [List.mem_filter]
      have hpt : ∀ r : Alert,
          (rowHits (buildPrices provider (distinctSymbols store)) r &&
            d1 r.id && a.id == r.id) =
          (rowHits (buildPrices provider (distinctSymbols store)) r &&
            d2 r.id && a.id == r.id) := by
        intro r
        by_cases hid : a.id = r.id
        · have hr : r.id ≠ bad := by
            rw [← hid]
            exact hneq
          rw [(hagree r.id hr).2]
        · have hbe : (a.id == r.id) = false := by simp [hid]
          simp [hbe]
      have hany : (store.any fun r =>
          rowHits (buildPrices provider (distinctSymbols store)) r &&
            d1 r.id && a.id == r.id) =
          (store.any fun r =>
            rowHits (buildPrices provider (distinctSymbols store)) r &&
              d2 r.id && a.id == r.id) := by
        simp only [hpt]
      rw [hany]

/-- C9 witness: whether the network calls for alert id 1 fail or succeed,
the cycle attempts the same notifications and alert id 2's row fares the
same. -/
theorem C9_witness :
    (alert_check_job [wAlert, wAlert2]
        ⟨true, wProv, wTrue, wTrue⟩).notifyAttempts =
      (alert_check_job [wAlert, wAlert2]
        ⟨true, wProv, wNot1, wNot1⟩).notifyAttempts ∧
    (wAlert2 ∈ (alert_check_job [wAlert, wAlert2]
        ⟨true, wProv, wTrue, wTrue⟩).store' ↔
      wAlert2 ∈ (alert_check_job [wAlert, wAlert2]
        ⟨true, wProv, wNot1, wNot1⟩).store') :=
  have h := C9_per_alert_failure_isolated [wAlert, wAlert2] true wProv
    wTrue wTrue wNot1 wNot1 1
    (fun j hj => ⟨by simp [wTrue, wNot1, hj], by simp [wTrue, wNot1, hj]⟩)
  ⟨h.1, h.2.2 wAlert2 (by decide) (by decide)⟩

/-- C8 counterexample: the code upper-cases but does not trim.  The
registrar stores the symbol `" btc"` as `" BTC"` (whitespace kept), which
differs from the trimmed-and-upper-cased form `"BTC"`; and the evaluator
groups the whitespace variant `" BTC"` separately from `"BTC"`, issuing
two provider calls for what is one ticker up to surrounding whitespace. -/
theorem C8_counterexample :
    (db_add_alert [] 1 10 20 " btc" 50000 "above").map Alert.symbol =
      [" BTC"] ∧
    (" BTC" : String) ≠ "BTC" ∧
    (alert_check_job
        [⟨1, 10, 20, "BTC", 50000, "above"⟩,
         ⟨2, 11, 21, " BTC", 50000, "above"⟩]
        ⟨true, wProv, wTrue, wTrue⟩).providerCalls.length = 2 :=
  ⟨by decide, by decide, by decide⟩

/-- C8 amended: symbols are normalized by upper-casing only — without
whitespace trimming — before storage (`db_add_alert`) and before grouping
in the evaluator; trimming is additionally applied only to the request
code sent to the quote provider (`lcw_single`).  Case variants of one
ticker are therefore stored, grouped, and priced as the same symbol. -/
theorem C8_upper_casing_only_normalization (store : List Alert)
    (next_id : Nat) (user_id chat_id : Int) (symbol : String) (target : Rat)
    (direction : String) :
    ((db_add_alert store next_id user_id chat_id symbol target
        direction).map Alert.symbol =
      store.map Alert.symbol ++ [pyUpper symbol]) ∧
    (∀ provider : String → Option Rat,
      lcw_single provider symbol = provider (pyStrip (pyUpper symbol))) ∧
    (∀ r1 r2 : Alert, pyUpper r1.symbol = pyUpper r2.symbol →
      (distinctSymbols [r1, r2]).length = 1) := by
  refine ⟨?_, fun _ => rfl, ?_⟩
  · unfold db_add_alert
    simp
  · intro r1 r2 h12
    unfold distinctSymbols
    simp only [List.map_cons, List.map_nil, h12]
    rw [List.dedup_cons_of_mem (List.mem_singleton.mpr rfl)]
    rfl

/-- C8 witness: a lower-case registration stores the upper-cased symbol
and the two case variants `BTC`/`btc` are grouped as one symbol. -/
theorem C8_witness :
    (db_add_alert [] 1 10 20 "btc" 50000 "above").map Alert.symbol =
      ["BTC"] ∧
    (distinctSymbols [wAlert, wAlert2]).length = 1 :=
  have h := C8_upper_casing_only_normalization [] 1 10 20 "btc" 50000
    "above"
  ⟨by rw [h.1]; decide, h.2.2 wAlert wAlert2 (by decide)⟩
